import Mathlib

/-
A shallow embedding of the AutoHedge trade-lifecycle gateway
(`src/api.py`, class `AutoHedgeAPI`) in Lean 4.

Modelling conventions:
- Python dicts that behave as ordered key/value stores (`self.users`,
  `self.api_keys`, `self.trades`, and the `performance_metrics` maps)
  become association lists `List (String × α)` with insertion-order
  semantics: assignment replaces in place if the key is present and
  appends otherwise, exactly like CPython 3.7+ dicts.
- Timestamps (`datetime.now(timezone.utc)`) become `Int` values supplied
  by the caller; float amounts become `ℚ`.
- The external Fund Engine call (`AutoFund(...)` construction plus
  `trading_system.run(...)`) is an opaque effect: its outcome is passed in
  as `Except String ResultPayload` (exception message or result payload).
- The outbound audit delivery (`log_agent_data`) is likewise opaque: a
  `Bool` says whether the single HTTP attempt succeeded.  Every call of
  the adapter `_log_to_swarms` is recorded in an `auditCalls` trace field
  so dispatch behaviour is observable.
- `HTTPException(status_code, detail)` becomes the error type `Err`;
  handlers return `Except Err β × State`.
-/

namespace AutoHedge

/-- Lifecycle states of a trade, from the `TradeStatus` enum. -/
inductive TradeStatus where
  | pending
  | executing
  | completed
  | failed
deriving DecidableEq

/-- Opaque structured result returned by the Fund Engine (`Dict[str, Any]`
in the source); the gateway never inspects it, so we model it opaquely. -/
abbrev ResultPayload := String

/-- Request payload for a trade submission (`TradingTask` model). -/
structure TradingTask where
  stocks : List String
  task : String
  allocation : ℚ
  strategy_type : Option String := none
  risk_level : Option Nat := none
deriving DecidableEq

/-- A stored trade record (`TradeResponse` model). -/
structure TradeResponse where
  id : String
  user_id : String
  task : TradingTask
  status : TradeStatus
  created_at : Int
  executed_at : Option Int
  result : Option ResultPayload
  performance_metrics : Option (List (String × ℚ))
deriving DecidableEq

/-- Registration payload (`UserCreate` model). -/
structure UserCreate where
  username : String
  email : String
  fund_name : String
  fund_description : Option String := none
deriving DecidableEq

/-- Partial profile update (`UserUpdate` model).  `none` means the field
was omitted from the request (pydantic `exclude_unset`); for the
description, `some none` means it was explicitly supplied as null. -/
structure UserUpdate where
  fund_name : Option String := none
  fund_description : Option (Option String) := none
  email : Option String := none
deriving DecidableEq

/-- A registered user (`User` model). -/
structure User where
  username : String
  email : String
  fund_name : String
  fund_description : Option String
  id : String
  api_key : String
  created_at : Int
  last_login : Option Int := none
  is_active : Bool := true
deriving DecidableEq

/-- Analytics snapshot (`HistoricalAnalytics` model). -/
structure HistoricalAnalytics where
  total_trades : Nat
  success_rate : ℚ
  average_return : ℚ
  total_allocation : ℚ
  risk_adjusted_return : ℚ
  top_performing_stocks : List (String × ℚ)
deriving DecidableEq

/-- An audit record handed to `_log_to_swarms` (the dict literal built in
`create_trade`). -/
structure AuditRec where
  trade_id : String
  user_id : String
  task : TradingTask
  result : ResultPayload
  performance_metrics : Option (List (String × ℚ))
deriving DecidableEq

/-- HTTP-style error: `HTTPException(status_code, detail)`. -/
inductive Err where
  | http (status_code : Nat) (detail : String)
deriving DecidableEq

/-- The in-memory state of `AutoHedgeAPI`: `self.users`, `self.api_keys`,
`self.trades`, plus a trace of every audit-adapter call (observability of
the `_log_to_swarms` effect; the source keeps no such list). -/
structure State where
  users : List (String × User)
  api_keys : List (String × String)
  trades : List (String × TradeResponse)
  auditCalls : List AuditRec
deriving DecidableEq

/-- The freshly constructed `AutoHedgeAPI.__init__` state: empty dicts. -/
def initState : State := ⟨[], [], [], []⟩

/-- Ordered-dict read: first entry with the key, like Python `d.get(k)`. -/
def alGet : List (String × α) → String → Option α
  | [], _ => none
  | p :: ps, k => if p.1 = k then some p.2 else alGet ps k

/-- Ordered-dict write `d[k] = v`: replace in place if present, else
append, preserving CPython dict insertion order. -/
def alSet (l : List (String × α)) (k : String) (v : α) : List (String × α) :=
  if (alGet l k).isSome then
    l.map (fun p => if p.1 = k then (k, v) else p)
  else
    l ++ [(k, v)]

/-- Ordered-dict delete `del d[k]`. -/
def alRemove (l : List (String × α)) (k : String) : List (String × α) :=
  l.filter (fun p => !decide (p.1 = k))

/-- Python `d.get(k, dflt)` on a metrics map. -/
def dictGet (d : List (String × ℚ)) (k : String) (dflt : ℚ) : ℚ :=
  match alGet d k with
  | some v => v
  | none => dflt

/-- Credential resolution `_get_current_user`: look the key up in
`api_keys`, reject falsy or dangling user ids with HTTP 401, otherwise
stamp `last_login` (an in-place mutation of the stored `User` object in
the source) and return the user. -/
def resolve (s : State) (api_key : String) (now : Int) :
    Except Err (User × State) :=
  match alGet s.api_keys api_key with
  | none => .error (Err.http 401 "Invalid API key")
  | some user_id =>
    if user_id = "" then .error (Err.http 401 "Invalid API key")
    else
      match alGet s.users user_id with
      | none => .error (Err.http 401 "Invalid API key")
      | some u =>
        let u' := { u with last_login := some now }
        .ok (u', { s with users := alSet s.users user_id u' })

/-- Registration handler `create_user`: build the `User` from the profile
plus fresh uuid strings (supplied here as `user_id`/`api_key` arguments),
store it in both maps. -/
def create_user (s : State) (profile : UserCreate)
    (user_id api_key : String) (now : Int) : User × State :=
  let user_data : User :=
    { username := profile.username
      email := profile.email
      fund_name := profile.fund_name
      fund_description := profile.fund_description
      id := user_id
      api_key := api_key
      created_at := now
      last_login := none
      is_active := true }
  (user_data,
    { s with
      users := alSet s.users user_id user_data
      api_keys := alSet s.api_keys api_key user_id })

/-- The merge performed by the `update_user` handler body:
`current_user.dict()` updated with `user_update.dict(exclude_unset=True)`.
Fields absent from the update payload keep their previous values; the
update model carries no id / api_key / created_at fields, so those always
survive the merge. -/
def applyUserUpdate (u : User) (upd : UserUpdate) : User :=
  { u with
    fund_name := upd.fund_name.getD u.fund_name
    fund_description := upd.fund_description.getD u.fund_description
    email := upd.email.getD u.email }

/-- Update handler `update_user`: authenticate, merge, store the merged
user back under the same id. -/
def update_user (s : State) (api_key : String) (upd : UserUpdate)
    (now : Int) : Except Err User × State :=
  match resolve s api_key now with
  | .error e => (.error e, s)
  | .ok (u, s1) =>
    let u' := applyUserUpdate u upd
    (.ok u', { s1 with users := alSet s1.users u.id u' })

/-- Metrics stub `_calculate_performance_metrics`: always the four
placeholder entries (the `try` body is a constant dict literal and cannot
raise, so the `except {}` branch is dead). -/
def calculate_performance_metrics (_trade_result : ResultPayload) :
    List (String × ℚ) :=
  [("return_percentage", 0), ("sharpe_ratio", 0),
   ("max_drawdown", 0), ("volatility", 0)]

/-- Retry-storage stub `_store_failed_log`: the source only emits a log
line ("Storing failed log for later retry") and stores nothing. -/
def store_failed_log (s : State) (_data_dict : AuditRec) : State := s

/-- Audit adapter `_log_to_swarms`: one delivery attempt
(`log_agent_data`), recorded in the trace; on any exception the record is
handed to `store_failed_log` and nothing propagates to the caller. -/
def log_to_swarms (s : State) (data_dict : AuditRec)
    (deliveryOk : Bool) : State :=
  let s' := { s with auditCalls := s.auditCalls ++ [data_dict] }
  if deliveryOk then s' else store_failed_log s' data_dict

/-- Submission handler body `create_trade` (post-authentication): build
the record, run the Fund Engine; on success complete the record, store
it, audit, and return it; on any exception raise HTTP 500 with the cause
— note the store happens only on the success path, so a failed submission
leaves no ledger record at all. -/
def create_trade (s : State) (current_user : User) (task : TradingTask)
    (trade_id : String) (now executed_now : Int)
    (engine : Except String ResultPayload) (deliveryOk : Bool) :
    Except Err TradeResponse × State :=
  match engine with
  | .error e => (.error (Err.http 500 e), s)
  | .ok result =>
    let metrics := calculate_performance_metrics result
    let trade_response : TradeResponse :=
      { id := trade_id
        user_id := current_user.id
        task := task
        status := TradeStatus.completed
        created_at := now
        executed_at := some executed_now
        result := some result
        performance_metrics := some metrics }
    let s1 := { s with trades := alSet s.trades trade_id trade_response }
    let s2 := log_to_swarms s1
      { trade_id := trade_id
        user_id := current_user.id
        task := task
        result := result
        performance_metrics := some metrics } deliveryOk
    (.ok trade_response, s2)

/-- Whether a trade passes the `list_trades` filter: owned by the
requester and matching the optional status filter. -/
def tradeMatches (requester_id : String) (status : Option TradeStatus)
    (t : TradeResponse) : Bool :=
  decide (t.user_id = requester_id) &&
    (match status with
     | none => true
     | some st => decide (t.status = st))

/-- Descending creation-time comparison used by
`sorted(key=created_at, reverse=True)`. -/
def createdDesc (a b : TradeResponse) : Bool :=
  decide (b.created_at ≤ a.created_at)

/-- Listing handler body `list_trades` (post-authentication): the owner's
trades, optionally status-filtered, sorted by creation time descending,
then the Python slice `[skip : skip + limit]`.  Pure: the state is
returned untouched. -/
def list_trades (s : State) (requester_id : String) (skip limit : Nat)
    (status : Option TradeStatus) : List TradeResponse × State :=
  let user_trades :=
    (s.trades.map Prod.snd).filter (tradeMatches requester_id status)
  (((user_trades.mergeSort createdDesc).drop skip).take limit, s)

/-- Read handler body `get_trade` (post-authentication): 404 if the id is
absent, then 403 if the record belongs to someone else. -/
def get_trade (s : State) (trade_id requester_id : String) :
    Except Err TradeResponse :=
  match alGet s.trades trade_id with
  | none => .error (Err.http 404 "Trade not found")
  | some trade =>
    if trade.user_id ≠ requester_id then
      .error (Err.http 403 "Not authorized to access this trade")
    else
      .ok trade

/-- Delete handler body `delete_trade` (post-authentication): same
existence-then-ownership checks as `get_trade`, then removal. -/
def delete_trade (s : State) (trade_id requester_id : String) :
    Except Err Unit × State :=
  match alGet s.trades trade_id with
  | none => (.error (Err.http 404 "Trade not found"), s)
  | some trade =>
    if trade.user_id ≠ requester_id then
      (.error (Err.http 403 "Not authorized to delete this trade"), s)
    else
      (.ok (), { s with trades := alRemove s.trades trade_id })

/-- Whether a trade is counted by the analytics window filter: owned by
the requester and created on or after `now - days`. -/
def inWindow (requester_id : String) (start_date : Int)
    (t : TradeResponse) : Bool :=
  decide (t.user_id = requester_id) && decide (start_date ≤ t.created_at)

/-- Sum of `t.performance_metrics.get("return_percentage", 0)` over the
matching trades; `none` models the `AttributeError` the source would
raise on a record whose metrics map is Python `None`. -/
def sumReturns : List TradeResponse → Option ℚ
  | [] => some 0
  | t :: ts =>
    match t.performance_metrics, sumReturns ts with
    | some d, some r => some (dictGet d "return_percentage" 0 + r)
    | _, _ => none

/-- All-zero snapshot returned for an empty matching set. -/
def emptyAnalytics : HistoricalAnalytics :=
  { total_trades := 0
    success_rate := 0
    average_return := 0
    total_allocation := 0
    risk_adjusted_return := 0
    top_performing_stocks := [] }

/-- Analytics handler body `get_historical_analytics`
(post-authentication): window-filter the requester's trades; an empty
match returns the zero snapshot, otherwise compute success rate, average
return and total allocation.  Pure over the state. -/
def get_historical_analytics (s : State) (requester_id : String)
    (now : Int) (days : Nat) : Option HistoricalAnalytics × State :=
  let start_date : Int := now - (days : Int)
  let user_trades :=
    (s.trades.map Prod.snd).filter (inWindow requester_id start_date)
  if user_trades.isEmpty then
    (some emptyAnalytics, s)
  else
    let successful_trades :=
      (user_trades.filter
        (fun t => decide (t.status = TradeStatus.completed))).length
    let total_trades := user_trades.length
    match sumReturns user_trades with
    | none => (none, s)
    | some sumRet =>
      (some
        { total_trades := total_trades
          success_rate :=
            (successful_trades : ℚ) / (total_trades : ℚ) * 100
          average_return := sumRet / (total_trades : ℚ)
          total_allocation :=
            (user_trades.map (fun t => t.task.allocation)).sum
          risk_adjusted_return := 0
          top_performing_stocks := [] },
        s)

/-- One authenticated (or registration) request to the API, with every
external nondeterminism — uuids, clock readings, Fund Engine outcome,
audit delivery outcome — made explicit as constructor data. -/
inductive Op where
  | opCreateUser (profile : UserCreate) (user_id api_key : String)
      (now : Int)
  | opGetMe (api_key : String) (now : Int)
  | opUpdateUser (api_key : String) (upd : UserUpdate) (now : Int)
  | opCreateTrade (api_key : String) (task : TradingTask)
      (trade_id : String) (now executed_now : Int)
      (engine : Except String ResultPayload) (deliveryOk : Bool)
  | opListTrades (api_key : String) (skip limit : Nat)
      (status : Option TradeStatus) (now : Int)
  | opGetTrade (api_key trade_id : String) (now : Int)
  | opDeleteTrade (api_key trade_id : String) (now : Int)
  | opAnalytics (api_key : String) (days : Nat) (now : Int)

/-- State transition of one request: authenticate where the route
requires it (a failed authentication leaves the state unchanged), then
run the handler body. -/
def Op.apply : Op → State → State
  | .opCreateUser p uid key now, s => (create_user s p uid key now).2
  | .opGetMe key now, s =>
    match resolve s key now with
    | .error _ => s
    | .ok (_, s1) => s1
  | .opUpdateUser key upd now, s => (update_user s key upd now).2
  | .opCreateTrade key task tid now en eng dok, s =>
    match resolve s key now with
    | .error _ => s
    | .ok (u, s1) => (create_trade s1 u task tid now en eng dok).2
  | .opListTrades key skip limit status now, s =>
    match resolve s key now with
    | .error _ => s
    | .ok (u, s1) => (list_trades s1 u.id skip limit status).2
  | .opGetTrade key _tid now, s =>
    match resolve s key now with
    | .error _ => s
    | .ok (_, s1) => s1
  | .opDeleteTrade key tid now, s =>
    match resolve s key now with
    | .error _ => s
    | .ok (u, s1) => (delete_trade s1 tid u.id).2
  | .opAnalytics key days now, s =>
    match resolve s key now with
    | .error _ => s
    | .ok (u, s1) => (get_historical_analytics s1 u.id now days).2

/-- Run a request sequence from a starting state. -/
def runOps (ops : List Op) (s : State) : State :=
  ops.foldl (fun st op => op.apply st) s

/-! Basic facts about the ordered-dict operations. -/

theorem alGet_append_none {α : Type} {l l' : List (String × α)} {k : String}
    (h : alGet l k = none) : alGet (l ++ l') k = alGet l' k := by
  induction l with
  | nil => simp
  | cons p ps ih =>
    by_cases hpk : p.1 = k
    · simp [alGet, hpk] at h
    · simp only [List.cons_append, alGet, if_neg hpk] at h ⊢
      exact ih h

theorem alGet_append_single_ne {α : Type} (l : List (String × α))
    {k k' : String} (v : α) (h : k' ≠ k) :
    alGet (l ++ [(k, v)]) k' = alGet l k' := by
  induction l with
  | nil => simp [alGet, Ne.symm h]
  | cons p ps ih =>
    by_cases hpk : p.1 = k'
    · simp [alGet, hpk]
    · simp [alGet, hpk, ih]

theorem alGet_map_set_self {α : Type} {l : List (String × α)} {k : String}
    {v : α} (h : (alGet l k).isSome) :
    alGet (l.map (fun p => if p.1 = k then (k, v) else p)) k = some v := by
  induction l with
  | nil => simp [alGet] at h
  | cons p ps ih =>
    by_cases hpk : p.1 = k
    · simp [alGet, hpk]
    · simp only [alGet, if_neg hpk] at h
      simp only [List.map_cons, if_neg hpk, alGet, if_neg hpk]
      exact ih h

theorem alGet_map_set_ne {α : Type} (l : List (String × α)) {k k' : String}
    (v : α) (h : k' ≠ k) :
    alGet (l.map (fun p => if p.1 = k then (k, v) else p)) k' =
      alGet l k' := by
  induction l with
  | nil => rfl
  | cons p ps ih =>
    by_cases hpk : p.1 = k
    · simpa [alGet, hpk, Ne.symm h] using ih
    · by_cases hpk' : p.1 = k'
      · simp [alGet, hpk, hpk', h]
      · simp [alGet, hpk, hpk', ih]

theorem alGet_alSet_self {α : Type} (l : List (String × α)) (k : String)
    (v : α) : alGet (alSet l k v) k = some v := by
  unfold alSet
  by_cases h : (alGet l k).isSome
  · rw [if_pos h]
    exact alGet_map_set_self h
  · rw [if_neg h]
    simp only [Option.not_isSome_iff_eq_none] at h
    rw [alGet_append_none h]
    simp [alGet]

theorem alGet_alSet_ne {α : Type} (l : List (String × α)) {k k' : String}
    (v : α) (h : k' ≠ k) : alGet (alSet l k v) k' = alGet l k' := by
  unfold alSet
  by_cases hs : (alGet l k).isSome
  · rw [if_pos hs]
    exact alGet_map_set_ne l v h
  · rw [if_neg hs]
    exact alGet_append_single_ne l v h

theorem alGet_alRemove_self {α : Type} (l : List (String × α)) (k : String) :
    alGet (alRemove l k) k = none := by
  induction l with
  | nil => rfl
  | cons p ps ih =>
    by_cases hpk : p.1 = k
    · simpa [alRemove, List.filter, hpk] using ih
    · simpa [alRemove, List.filter, hpk, alGet] using ih

theorem alGet_alRemove_ne {α : Type} (l : List (String × α)) {k k' : String}
    (h : k' ≠ k) : alGet (alRemove l k) k' = alGet l k' := by
  have hkk' : ¬(k = k') := fun he => h he.symm
  induction l with
  | nil => rfl
  | cons p ps ih =>
    by_cases hpk : p.1 = k
    · simpa [alRemove, List.filter, hpk, alGet, hkk'] using ih
    · by_cases hpk' : p.1 = k'
      · simp [alRemove, List.filter, hpk, hpk', alGet, h]
      · simpa [alRemove, List.filter, hpk, hpk', alGet] using ih

theorem alGet_mem {α : Type} {l : List (String × α)} {k : String} {v : α}
    (h : alGet l k = some v) : (k, v) ∈ l := by
  induction l with
  | nil => simp [alGet] at h
  | cons p ps ih =>
    obtain ⟨a, b⟩ := p
    by_cases hpk : a = k
    · have hv : b = v := by simpa [alGet, hpk] using h
      subst hpk
      subst hv
      exact List.mem_cons_self _ _
    · exact
        List.mem_cons.mpr (Or.inr (ih (by simpa [alGet, hpk] using h)))

theorem mem_alSet {α : Type} {l : List (String × α)} {k : String} {v : α}
    {q : String × α} (h : q ∈ alSet l k v) : q ∈ l ∨ q = (k, v) := by
  unfold alSet at h
  by_cases hs : (alGet l k).isSome
  · rw [if_pos hs] at h
    rcases List.mem_map.mp h with ⟨p, hp, hq⟩
    by_cases hpk : p.1 = k
    · right
      rw [if_pos hpk] at hq
      exact hq.symm
    · left
      rw [if_neg hpk] at hq
      exact hq ▸ hp
  · rw [if_neg hs] at h
    rcases List.mem_append.mp h with h1 | h1
    · left
      exact h1
    · right
      simpa using h1

theorem mem_alRemove {α : Type} {l : List (String × α)} {k : String}
    {q : String × α} (h : q ∈ alRemove l k) : q ∈ l :=
  List.mem_of_mem_filter h

theorem ne_keys_of_alGet_none {α : Type} {l : List (String × α)} {k : String}
    (h : alGet l k = none) : ∀ p ∈ l, p.1 ≠ k := by
  induction l with
  | nil => simp
  | cons p ps ih =>
    by_cases hpk : p.1 = k
    · simp [alGet, hpk] at h
    · intro q hq
      rcases List.mem_cons.mp hq with rfl | hq'
      · exact hpk
      · exact ih (by simpa [alGet, hpk] using h) q hq'

/-- Case analysis of credential resolution: either it fails with 401, or
the credential maps to an existing user, `last_login` is stamped, and
only that user changes. -/
theorem resolve_cases (s : State) (key : String) (now : Int) :
    resolve s key now = .error (Err.http 401 "Invalid API key") ∨
    ∃ uid u, alGet s.api_keys key = some uid ∧ uid ≠ "" ∧
      alGet s.users uid = some u ∧
      resolve s key now =
        .ok ({ u with last_login := some now },
          { s with users :=
              alSet s.users uid { u with last_login := some now } }) := by
  unfold resolve
  cases h1 : alGet s.api_keys key with
  | none => left; rfl
  | some uid =>
    by_cases h2 : uid = ""
    · left
      simp [h2]
    · cases h3 : alGet s.users uid with
      | none =>
        left
        simp [h2, h3]
      | some u =>
        right
        exact ⟨uid, u, by simp [h1], h2, by simp [h3], by simp [h2, h3]⟩

/-! Concrete sample data used to instantiate theorems with hypotheses. -/

def sampleTask : TradingTask :=
  { stocks := ["NVDA", "AAPL"]
    task := "Buy and hold the dip"
    allocation := 1000000 }

def sampleUser : User :=
  { username := "trader_1"
    email := "trader_1@example.com"
    fund_name := "Test Trading Fund"
    fund_description := none
    id := "u1"
    api_key := "key1"
    created_at := 0 }

def inactiveUser : User := { sampleUser with is_active := false }

def inactiveState : State :=
  { users := [("u1", inactiveUser)]
    api_keys := [("key1", "u1")]
    trades := []
    auditCalls := [] }

def sampleTrade : TradeResponse :=
  { id := "t1"
    user_id := "u1"
    task := sampleTask
    status := TradeStatus.completed
    created_at := 1
    executed_at := some 2
    result := some "result"
    performance_metrics := some (calculate_performance_metrics "result") }

def oneTradeState : State :=
  { users := [("u1", sampleUser)]
    api_keys := [("key1", "u1")]
    trades := [("t1", sampleTrade)]
    auditCalls := [] }

def sampleUpdate : UserUpdate :=
  { fund_name := some "New Fund" }

/-! Claim C1. -/

/-- C1 counterexample: submit a trade whose Fund Engine call fails.  The
claim says the ledger then holds the submission's record in terminal
state FAILED; in fact the ledger holds no record for it at all — the
store happens only on the success path. -/
theorem C1_counterexample :
    alGet (create_trade initState sampleUser sampleTask "t1" 0 0
        (Except.error "engine down") true).2.trades "t1" = none := rfl

/-- C1 (amended): when the Fund Engine call fails, the submission
surfaces HTTP 500 carrying the underlying cause and leaves the state —
in particular the trade ledger — completely unchanged: no record for the
submission is stored, neither in EXECUTING nor in FAILED. -/
theorem C1_engine_failure (s : State) (u : User) (task : TradingTask)
    (trade_id : String) (now en : Int) (msg : String)
    (deliveryOk : Bool) :
    create_trade s u task trade_id now en (Except.error msg)
        deliveryOk =
      (Except.error (Err.http 500 msg), s) ∧
    (alGet s.trades trade_id = none →
      alGet (create_trade s u task trade_id now en (Except.error msg)
          deliveryOk).2.trades trade_id = none) := by
  exact ⟨rfl, fun h => h⟩

/-- C1 witness: the amended theorem applied at a concrete failing
submission. -/
theorem C1_engine_failure_witness :
    create_trade initState sampleUser sampleTask "t2" 0 0
        (Except.error "engine down") true =
      (Except.error (Err.http 500 "engine down"), initState) ∧
    alGet (create_trade initState sampleUser sampleTask "t2" 0 0
        (Except.error "engine down") true).2.trades "t2" = none := by
  have h := C1_engine_failure initState sampleUser sampleTask "t2" 0 0
    "engine down" true
  exact ⟨h.1, h.2 rfl⟩

/-! Claim C2. -/

/-- C2 counterexample: the credential of a user marked inactive
(`is_active = false`) still resolves successfully — the resolution path
never consults the active flag, refuting the claimed 401 on inactive
users. -/
theorem C2_counterexample :
    resolve inactiveState "key1" 7 =
      Except.ok ({ inactiveUser with last_login := some 7 },
        { inactiveState with
            users := [("u1", { inactiveUser with last_login := some 7 })] }) ∧
    inactiveUser.is_active = false := ⟨rfl, rfl⟩

/-- C2 (amended): resolution fails with HTTP 401 exactly when no user
owns the credential — no mapping, a falsy mapped id, or a mapping to an
absent user id; a credential mapped to an existing user resolves
successfully regardless of the user's `is_active` flag, stamping only
the last-access timestamp. -/
theorem C2_resolve (s : State) (key : String) (now : Int) :
    (alGet s.api_keys key = none →
      resolve s key now = .error (Err.http 401 "Invalid API key")) ∧
    (∀ uid, alGet s.api_keys key = some uid → uid ≠ "" →
      alGet s.users uid = none →
      resolve s key now = .error (Err.http 401 "Invalid API key")) ∧
    (∀ uid u, alGet s.api_keys key = some uid → uid ≠ "" →
      alGet s.users uid = some u →
      resolve s key now =
        .ok ({ u with last_login := some now },
          { s with
              users :=
                alSet s.users uid
                  { u with last_login := some now } })) := by
  refine ⟨fun h => ?_, fun uid h hne h2 => ?_, fun uid u h hne h2 => ?_⟩
  · simp [resolve, h]
  · simp [resolve, h, hne, h2]
  · simp [resolve, h, hne, h2]

/-- C2 witness: the amended theorem applied to the inactive sample user,
whose credential resolves successfully. -/
theorem C2_resolve_witness :
    resolve inactiveState "key1" 7 =
      .ok ({ inactiveUser with last_login := some 7 },
        { inactiveState with
            users :=
              alSet inactiveState.users "u1"
                { inactiveUser with last_login := some 7 } }) :=
  (C2_resolve inactiveState "key1" 7).2.2 "u1" inactiveUser rfl
    (by decide) rfl

/-! Claim C3. -/

/-- C3: on Fund Engine success the submission returns a COMPLETED record
with a non-null execution timestamp, the engine result attached and a
metrics map holding exactly the four declared keys at their placeholder
zeros, and stores that very record in the ledger under the freshly
allocated identifier, which differs from every existing trade id. -/
theorem C3_engine_success (s : State) (u : User) (task : TradingTask)
    (trade_id : String) (now en : Int) (res : ResultPayload)
    (deliveryOk : Bool) (hfresh : alGet s.trades trade_id = none) :
    (create_trade s u task trade_id now en (Except.ok res)
        deliveryOk).1 =
      Except.ok
        { id := trade_id
          user_id := u.id
          task := task
          status := TradeStatus.completed
          created_at := now
          executed_at := some en
          result := some res
          performance_metrics :=
            some [("return_percentage", 0), ("sharpe_ratio", 0),
                  ("max_drawdown", 0), ("volatility", 0)] } ∧
    alGet (create_trade s u task trade_id now en (Except.ok res)
        deliveryOk).2.trades trade_id =
      some
        { id := trade_id
          user_id := u.id
          task := task
          status := TradeStatus.completed
          created_at := now
          executed_at := some en
          result := some res
          performance_metrics :=
            some [("return_percentage", 0), ("sharpe_ratio", 0),
                  ("max_drawdown", 0), ("volatility", 0)] } ∧
    (∀ p ∈ s.trades, p.1 ≠ trade_id) := by
  refine ⟨rfl, ?_, ne_keys_of_alGet_none hfresh⟩
  cases deliveryOk <;>
    simp [create_trade, log_to_swarms, store_failed_log,
      calculate_performance_metrics, alGet_alSet_self]

/-- C3 witness: a concrete successful submission comes back COMPLETED. -/
theorem C3_engine_success_witness :
    (create_trade initState sampleUser sampleTask "t1" 3 5
        (Except.ok "result") true).1.toOption.map
        TradeResponse.status =
      some TradeStatus.completed := by
  have h := C3_engine_success initState sampleUser sampleTask "t1" 3 5
    "result" true rfl
  rw [h.1]
  rfl

/-! Claim C6. -/

/-- C6: existence is checked before ownership — a missing id yields 404
for both `get` and `delete` regardless of requester; an existing record
owned by someone else yields 403; in both error cases the ledger is
unchanged; a successful delete removes exactly that record, so an
immediate second delete or a get of the same id by the owner yields
404. -/
theorem C6_get_delete (s : State) (trade_id requester : String) :
    (alGet s.trades trade_id = none →
      get_trade s trade_id requester =
        .error (Err.http 404 "Trade not found") ∧
      delete_trade s trade_id requester =
        (.error (Err.http 404 "Trade not found"), s)) ∧
    (∀ tr, alGet s.trades trade_id = some tr →
      tr.user_id ≠ requester →
      get_trade s trade_id requester =
        .error (Err.http 403 "Not authorized to access this trade") ∧
      delete_trade s trade_id requester =
        (.error (Err.http 403 "Not authorized to delete this trade"),
          s)) ∧
    (∀ tr, alGet s.trades trade_id = some tr →
      tr.user_id = requester →
      (delete_trade s trade_id requester).1 = .ok () ∧
      alGet (delete_trade s trade_id requester).2.trades trade_id =
        none ∧
      (delete_trade (delete_trade s trade_id requester).2 trade_id
          requester).1 = .error (Err.http 404 "Trade not found") ∧
      get_trade (delete_trade s trade_id requester).2 trade_id
          requester = .error (Err.http 404 "Trade not found") ∧
      (∀ tid2, tid2 ≠ trade_id →
        alGet (delete_trade s trade_id requester).2.trades tid2 =
          alGet s.trades tid2)) := by
  refine ⟨fun h => ⟨?_, ?_⟩, fun tr h hne => ⟨?_, ?_⟩,
    fun tr h he => ?_⟩
  · simp [get_trade, h]
  · simp [delete_trade, h]
  · simp [get_trade, h, hne]
  · simp [delete_trade, h, hne]
  · have hd : delete_trade s trade_id requester =
        (.ok (), { s with trades := alRemove s.trades trade_id }) := by
      simp [delete_trade, h, he]
    refine ⟨by rw [hd], ?_, ?_, ?_, ?_⟩
    · rw [hd]
      exact alGet_alRemove_self s.trades trade_id
    · rw [hd]
      simp [delete_trade, alGet_alRemove_self]
    · rw [hd]
      simp [get_trade, alGet_alRemove_self]
    · intro tid2 hne2
      rw [hd]
      exact alGet_alRemove_ne s.trades hne2

/-- C6 witness: owner deletes a stored trade, a second delete 404s, and a
foreign requester gets 403. -/
theorem C6_get_delete_witness :
    (delete_trade oneTradeState "t1" "u1").1 = .ok () ∧
    (delete_trade (delete_trade oneTradeState "t1" "u1").2 "t1"
        "u1").1 = .error (Err.http 404 "Trade not found") ∧
    get_trade oneTradeState "t1" "u2" =
      .error (Err.http 403 "Not authorized to access this trade") := by
  have h1 := C6_get_delete oneTradeState "t1" "u1"
  have h2 := C6_get_delete oneTradeState "t1" "u2"
  exact ⟨(h1.2.2 sampleTrade rfl rfl).1,
    (h1.2.2 sampleTrade rfl rfl).2.2.1,
    (h2.2.1 sampleTrade rfl (by decide)).1⟩

/-! Claim C7. -/

/-- C7 counterexample: for a submission whose Fund Engine call fails, no
audit record is dispatched at all — the audit-adapter call trace stays
empty — refuting the claim that a record is dispatched regardless of the
engine outcome. -/
theorem C7_counterexample :
    (create_trade initState sampleUser sampleTask "t1" 0 0
        (Except.error "engine down") true).2.auditCalls = [] := rfl

/-- C7 (amended): an audit record (trade id, user id, task, result,
metrics) is dispatched exactly when the Fund Engine call succeeds — on
engine failure no audit is attempted; the delivery outcome never raises,
never affects the returned response or the stored trades, and a failed
delivery stores nothing: the retry-storage routine is a stub that leaves
the state unchanged. -/
theorem C7_audit (s : State) (u : User) (task : TradingTask)
    (trade_id : String) (now en : Int) (res msg : String)
    (deliveryOk : Bool) (d : AuditRec) :
    (create_trade s u task trade_id now en (Except.ok res)
        deliveryOk).2.auditCalls =
      s.auditCalls ++
        [{ trade_id := trade_id
           user_id := u.id
           task := task
           result := res
           performance_metrics :=
             some [("return_percentage", 0), ("sharpe_ratio", 0),
                   ("max_drawdown", 0), ("volatility", 0)] }] ∧
    (create_trade s u task trade_id now en (Except.error msg)
        deliveryOk).2.auditCalls = s.auditCalls ∧
    (create_trade s u task trade_id now en (Except.ok res) true).1 =
      (create_trade s u task trade_id now en (Except.ok res)
        false).1 ∧
    (create_trade s u task trade_id now en (Except.ok res)
        true).2.trades =
      (create_trade s u task trade_id now en (Except.ok res)
        false).2.trades ∧
    store_failed_log s d = s := by
  refine ⟨?_, rfl, rfl, rfl, rfl⟩
  cases deliveryOk <;> rfl

/-! Claim C9. -/

/-- C9: the profile merge changes exactly the supplied fields — an
omitted field keeps its previous value, a supplied field takes the
supplied value (for the description, supplying an explicit null clears
it, which is distinct from omitting it) — and the identifier, credential
and creation timestamp survive every update; the handler never touches
the credential map or the ledger. -/
theorem C9_update (u : User) (upd : UserUpdate) :
    (applyUserUpdate u upd).id = u.id ∧
    (applyUserUpdate u upd).api_key = u.api_key ∧
    (applyUserUpdate u upd).created_at = u.created_at ∧
    (applyUserUpdate u upd).username = u.username ∧
    (applyUserUpdate u upd).last_login = u.last_login ∧
    (applyUserUpdate u upd).is_active = u.is_active ∧
    (upd.fund_name = none →
      (applyUserUpdate u upd).fund_name = u.fund_name) ∧
    (∀ v, upd.fund_name = some v →
      (applyUserUpdate u upd).fund_name = v) ∧
    (upd.fund_description = none →
      (applyUserUpdate u upd).fund_description =
        u.fund_description) ∧
    (∀ v, upd.fund_description = some v →
      (applyUserUpdate u upd).fund_description = v) ∧
    (upd.email = none → (applyUserUpdate u upd).email = u.email) ∧
    (∀ v, upd.email = some v → (applyUserUpdate u upd).email = v) ∧
    (∀ s key now,
      (update_user s key upd now).2.api_keys = s.api_keys ∧
      (update_user s key upd now).2.trades = s.trades) := by
  refine ⟨rfl, rfl, rfl, rfl, rfl, rfl,
    fun h => by simp [applyUserUpdate, h],
    fun v h => by simp [applyUserUpdate, h],
    fun h => by simp [applyUserUpdate, h],
    fun v h => by simp [applyUserUpdate, h],
    fun h => by simp [applyUserUpdate, h],
    fun v h => by simp [applyUserUpdate, h],
    fun s key now => ?_⟩
  rcases resolve_cases s key now with h | ⟨uid, u', h1, h2, h3, h4⟩
  · simp [update_user, h]
  · simp [update_user, h4]

/-! Claim C5. -/

/-- C5: listing returns exactly the requester's records matching the
filter: the result is the slice from `skip` to `skip + limit` of the
descending-by-creation-time sort of those records; its length never
exceeds `limit`; it is itself sorted descending; every returned record
belongs to the requester and matches the filter; and the operation
leaves the stored state untouched. -/
theorem C5_list (s : State) (requester : String) (skip limit : Nat)
    (status : Option TradeStatus) (hlo : 1 ≤ limit)
    (hhi : limit ≤ 100) :
    (list_trades s requester skip limit status).1 =
      ((((s.trades.map Prod.snd).filter
        (tradeMatches requester status)).mergeSort
          createdDesc).drop skip).take limit ∧
    (list_trades s requester skip limit status).1.length ≤ limit ∧
    List.Pairwise (fun a b => b.created_at ≤ a.created_at)
      (list_trades s requester skip limit status).1 ∧
    (∀ t, t ∈ ((s.trades.map Prod.snd).filter
        (tradeMatches requester status)).mergeSort createdDesc ↔
      t ∈ (s.trades.map Prod.snd).filter
        (tradeMatches requester status)) ∧
    (∀ t ∈ (list_trades s requester skip limit status).1,
      t.user_id = requester ∧
      ∀ st, status = some st → t.status = st) ∧
    (list_trades s requester skip limit status).2 = s := by
  have htrans : ∀ a b c : TradeResponse, createdDesc a b = true →
      createdDesc b c = true → createdDesc a c = true := by
    intro a b c hab hbc
    simp only [createdDesc, decide_eq_true_eq] at hab hbc ⊢
    exact le_trans hbc hab
  have htotal : ∀ a b : TradeResponse,
      (createdDesc a b || createdDesc b a) = true := by
    intro a b
    simp only [createdDesc, Bool.or_eq_true, decide_eq_true_eq]
    exact le_total b.created_at a.created_at
  have hsorted := List.sorted_mergeSort htrans htotal
    ((s.trades.map Prod.snd).filter (tradeMatches requester status))
  have hsub : List.Sublist
      (((((s.trades.map Prod.snd).filter
        (tradeMatches requester status)).mergeSort
          createdDesc).drop skip).take limit)
      (((s.trades.map Prod.snd).filter
        (tradeMatches requester status)).mergeSort createdDesc) :=
    (List.take_sublist _ _).trans (List.drop_sublist _ _)
  refine ⟨rfl, ?_, ?_, ?_, ?_, rfl⟩
  · exact List.length_take_le _ _
  · exact (List.Pairwise.sublist hsub hsorted).imp
      (fun hab => by simpa [createdDesc, decide_eq_true_eq] using hab)
  · intro t
    exact (List.mergeSort_perm _ _).mem_iff
  · intro t ht
    have ht1 := hsub.subset ht
    have ht2 := (List.mergeSort_perm _ _).mem_iff.mp ht1
    have hm := (List.mem_filter.mp ht2).2
    simp only [tradeMatches, Bool.and_eq_true, decide_eq_true_eq] at hm
    refine ⟨hm.1, fun st hst => ?_⟩
    have hm2 := hm.2
    rw [hst] at hm2
    simpa using hm2

/-- C5 witness: the theorem applied at a concrete state, giving the
length bound for default pagination. -/
theorem C5_list_witness :
    (list_trades oneTradeState "u1" 0 10 none).1.length ≤ 10 :=
  (C5_list oneTradeState "u1" 0 10 none (by decide) (by decide)).2.1

/-! Claim C4. -/

/-- Helper: when every record carries a metrics map, the analytics sum
never errors and equals the sum of `return_percentage` entries with a
map lacking the key contributing zero. -/
theorem sumReturns_eq_of_isSome {l : List TradeResponse}
    (h : ∀ t ∈ l, t.performance_metrics.isSome) :
    sumReturns l =
      some ((l.map (fun t =>
        match t.performance_metrics with
        | some d => dictGet d "return_percentage" 0
        | none => 0)).sum) := by
  induction l with
  | nil => simp [sumReturns]
  | cons t ts ih =>
    have ht := h t (List.mem_cons_self t ts)
    cases hm : t.performance_metrics with
    | none =>
      rw [hm] at ht
      simp at ht
    | some d =>
      have hts := ih (fun x hx => h x (List.mem_cons_of_mem t hx))
      simp [sumReturns, hm, hts]

/-- C4: analytics over the requester's in-window records: an empty match
yields the all-zero snapshot with empty rankings (no error and no
division is ever attempted); a non-empty match whose records all carry a
metrics map yields success rate completed/total×100, average return (sum
of the `return_percentage` entries, a map lacking the key contributing
zero) divided by total, and the summed task allocations — and the state
is returned untouched. -/
theorem C4_analytics (s : State) (requester : String) (now : Int)
    (days : Nat) :
    ((s.trades.map Prod.snd).filter
        (inWindow requester (now - (days : Int))) = [] →
      get_historical_analytics s requester now days =
        (some emptyAnalytics, s)) ∧
    (∀ ut, (s.trades.map Prod.snd).filter
        (inWindow requester (now - (days : Int))) = ut → ut ≠ [] →
      (∀ t ∈ ut, t.performance_metrics.isSome) →
      get_historical_analytics s requester now days =
        (some
          { total_trades := ut.length
            success_rate :=
              (((ut.filter (fun t =>
                decide (t.status = TradeStatus.completed))).length :
                  ℚ) / (ut.length : ℚ)) * 100
            average_return :=
              (ut.map (fun t =>
                match t.performance_metrics with
                | some d => dictGet d "return_percentage" 0
                | none => 0)).sum / (ut.length : ℚ)
            total_allocation :=
              (ut.map (fun t => t.task.allocation)).sum
            risk_adjusted_return := 0
            top_performing_stocks := [] }, s)) := by
  constructor
  · intro h
    simp [get_historical_analytics, h]
  · intro ut hut hne hsome
    have hs := sumReturns_eq_of_isSome hsome
    simp only [get_historical_analytics]
    rw [hut, hs]
    simp [List.isEmpty_iff, hne]

/-- C4 witness: the non-empty branch applied at a concrete one-trade
state, evaluating to a fully computed snapshot. -/
theorem C4_analytics_witness :
    (get_historical_analytics oneTradeState "u1" 5 10).1 =
      some
        { total_trades := 1
          success_rate := 100
          average_return := 0
          total_allocation := 1000000
          risk_adjusted_return := 0
          top_performing_stocks := [] } := by
  have h := (C4_analytics oneTradeState "u1" 5 10).2 [sampleTrade]
    (by decide) (by decide) (by decide)
  rw [h]
  norm_num [sampleTrade, sampleTask, calculate_performance_metrics,
    dictGet, alGet]

/-- C9 witness: updating only the fund name keeps the credential and the
description and applies the new name. -/
theorem C9_update_witness :
    (applyUserUpdate sampleUser sampleUpdate).api_key =
      sampleUser.api_key ∧
    (applyUserUpdate sampleUser sampleUpdate).fund_name = "New Fund" ∧
    (applyUserUpdate sampleUser sampleUpdate).fund_description =
      sampleUser.fund_description := by
  obtain ⟨-, hkey, -, -, -, -, -, hname, hdesc, -, -, -, -⟩ :=
    C9_update sampleUser sampleUpdate
  exact ⟨hkey, hname "New Fund" rfl, hdesc rfl⟩

/-! Claim C8: credential round-trip and persistence machinery. -/

/-- Every stored user is keyed by its own identifier (true of every
state the API can build, since users are stored under their fresh
uuid). -/
def UsersWF (s : State) : Prop := ∀ p ∈ s.users, (p.2).id = p.1

/-- Credential invariant for one registered user: the credential maps to
the user's id, and the stored user carries exactly that id and
credential. -/
def CredInv (s : State) (uid key : String) : Prop :=
  uid ≠ "" ∧ alGet s.api_keys key = some uid ∧
    ∃ u, alGet s.users uid = some u ∧ u.id = uid ∧ u.api_key = key

/-- A request avoids a registered identity when it does not re-register
the same user id or credential (uuid freshness of registration). -/
def Op.avoids (uid key : String) : Op → Prop
  | .opCreateUser _ uid' key' _ => uid' ≠ uid ∧ key' ≠ key
  | _ => True

theorem usersWF_alSet {l : List (String × User)}
    (h : ∀ p ∈ l, (p.2).id = p.1) {k : String} {v : User}
    (hv : v.id = k) : ∀ p ∈ alSet l k v, (p.2).id = p.1 := by
  intro p hp
  rcases mem_alSet hp with hmem | rfl
  · exact h p hmem
  · exact hv

theorem credInv_set_user {s : State} {uid key : String}
    (h : CredInv s uid key) (uid'' : String) (v : User)
    (hv : uid'' = uid → v.id = uid ∧ v.api_key = key) :
    CredInv { s with users := alSet s.users uid'' v } uid key := by
  obtain ⟨hne, hk, u, hu, hid, hkey⟩ := h
  refine ⟨hne, hk, ?_⟩
  by_cases hcase : uid'' = uid
  · subst hcase
    exact ⟨v, by rw [show ({ s with users := alSet s.users uid'' v
        } : State).users = alSet s.users uid'' v from rfl,
        alGet_alSet_self], (hv rfl).1, (hv rfl).2⟩
  · exact ⟨u, by rw [show ({ s with users := alSet s.users uid'' v
        } : State).users = alSet s.users uid'' v from rfl,
        alGet_alSet_ne _ _ (fun he => hcase he.symm)]; exact hu,
      hid, hkey⟩

/-- Successful resolution: state frame — the credential map, ledger and
audit trace are untouched; exactly one user entry changes, replaced by
itself with a stamped last-access time — plus preservation of both
invariants. -/
theorem resolve_ok_props {s : State} {key' : String} {now : Int}
    {u' : User} {s' : State} (hwf : UsersWF s)
    (h : resolve s key' now = .ok (u', s')) :
    s'.api_keys = s.api_keys ∧ s'.trades = s.trades ∧
    s'.auditCalls = s.auditCalls ∧ UsersWF s' ∧
    ∃ uid0 u0, alGet s.users uid0 = some u0 ∧
      u' = { u0 with last_login := some now } ∧ u'.id = uid0 ∧
      s'.users = alSet s.users uid0 u' := by
  rcases resolve_cases s key' now with he | ⟨uid, u, h1, h2, h3, h4⟩
  · rw [he] at h
    exact absurd h (by simp)
  · rw [h4] at h
    simp only [Except.ok.injEq, Prod.mk.injEq] at h
    obtain ⟨hu', hs'⟩ := h
    subst hu'
    subst hs'
    have hid : u.id = uid := hwf (uid, u) (alGet_mem h3)
    refine ⟨rfl, rfl, rfl, ?_, uid, u, h3, rfl, hid, rfl⟩
    exact usersWF_alSet hwf hid

/-- Resolution preserves both invariants, and the user it returns for
our credential's id carries our credential. -/
theorem credInv_resolve_ok {s : State} {uid key key' : String}
    {now : Int} {u' : User} {s' : State} (hwf : UsersWF s)
    (hinv : CredInv s uid key)
    (h : resolve s key' now = .ok (u', s')) :
    UsersWF s' ∧ CredInv s' uid key ∧
    (u'.id = uid → u'.api_key = key) ∧
    s'.api_keys = s.api_keys ∧ s'.trades = s.trades := by
  obtain ⟨hak, htr, hau, hwf', uid0, u0, hu0, hu'eq, hid', hus⟩ :=
    resolve_ok_props hwf h
  have hinv' : CredInv s' uid key := by
    have := credInv_set_user hinv uid0 u'
      (fun he => by
        subst he
        obtain ⟨-, -, u1, hu1, -, hkey1⟩ := hinv
        have : u0 = u1 := by
          rw [hu0] at hu1
          exact Option.some.inj hu1
        subst this
        subst hu'eq
        exact ⟨hid', hkey1⟩)
    obtain ⟨a, b, c⟩ := this
    refine ⟨a, ?_, ?_⟩
    · rw [hak]
      exact b
    · rw [hus]
      exact c
  refine ⟨hwf', hinv', fun hidu => ?_, hak, htr⟩
  have : uid0 = uid := hid' ▸ hidu
  subst this
  obtain ⟨-, -, u1, hu1, -, hkey1⟩ := hinv
  have : u0 = u1 := by
    rw [hu0] at hu1
    exact Option.some.inj hu1
  subst this
  subst hu'eq
  exact hkey1

theorem create_trade_frame (s : State) (u : User) (task : TradingTask)
    (tid : String) (n en : Int) (eng : Except String ResultPayload)
    (dok : Bool) :
    (create_trade s u task tid n en eng dok).2.users = s.users ∧
    (create_trade s u task tid n en eng dok).2.api_keys =
      s.api_keys := by
  cases eng <;> cases dok <;>
    simp [create_trade, log_to_swarms, store_failed_log]

theorem delete_trade_frame (s : State) (tid r : String) :
    (delete_trade s tid r).2.users = s.users ∧
    (delete_trade s tid r).2.api_keys = s.api_keys := by
  unfold delete_trade
  cases alGet s.trades tid with
  | none => exact ⟨rfl, rfl⟩
  | some tr =>
    by_cases hne : tr.user_id ≠ r
    · simp [hne]
    · simp [hne]

theorem analytics_state (s : State) (r : String) (n : Int) (d : Nat) :
    (get_historical_analytics s r n d).2 = s := by
  simp only [get_historical_analytics]
  split
  · rfl
  · split <;> rfl

theorem usersWF_congr {s s' : State} (hu : s'.users = s.users)
    (h : UsersWF s) : UsersWF s' := by
  intro p hp
  rw [hu] at hp
  exact h p hp

theorem credInv_congr {s s' : State} {uid key : String}
    (hu : s'.users = s.users) (hk : s'.api_keys = s.api_keys)
    (h : CredInv s uid key) : CredInv s' uid key := by
  obtain ⟨a, b, c⟩ := h
  exact ⟨a, by rw [hk]; exact b, by rw [hu]; exact c⟩

/-- One request that avoids a registered identity preserves both
invariants. -/
theorem credInv_step (op : Op) {s : State} {uid key : String}
    (hwf : UsersWF s) (hinv : CredInv s uid key)
    (hav : op.avoids uid key) :
    UsersWF (op.apply s) ∧ CredInv (op.apply s) uid key := by
  cases op with
  | opCreateUser p uid' key' now =>
    obtain ⟨h1, h2⟩ := hav
    constructor
    · intro q hq
      rcases mem_alSet hq with hmem | rfl
      · exact hwf q hmem
      · rfl
    · obtain ⟨hne, hk, u, hu, hid, hkey⟩ := hinv
      refine ⟨hne, ?_, u, ?_, hid, hkey⟩
      · show alGet (alSet s.api_keys key' uid') key = some uid
        rw [alGet_alSet_ne _ _ (Ne.symm h2)]
        exact hk
      · show alGet (alSet s.users uid' _) uid = some u
        rw [alGet_alSet_ne _ _ (Ne.symm h1)]
        exact hu
  | opGetMe key' now =>
    simp only [Op.apply]
    cases hres : resolve s key' now with
    | error e => exact ⟨hwf, hinv⟩
    | ok p =>
      obtain ⟨u', s1⟩ := p
      have h := credInv_resolve_ok hwf hinv hres
      exact ⟨h.1, h.2.1⟩
  | opUpdateUser key' upd now =>
    simp only [Op.apply]
    unfold update_user
    cases hres : resolve s key' now with
    | error e => exact ⟨hwf, hinv⟩
    | ok p =>
      obtain ⟨u', s1⟩ := p
      obtain ⟨hwf1, hinv1, hukey, -, -⟩ :=
        credInv_resolve_ok hwf hinv hres
      constructor
      · exact usersWF_alSet hwf1 rfl
      · exact credInv_set_user hinv1 u'.id (applyUserUpdate u' upd)
          (fun he => ⟨he, hukey he⟩)
  | opCreateTrade key' task tid now en eng dok =>
    simp only [Op.apply]
    cases hres : resolve s key' now with
    | error e => exact ⟨hwf, hinv⟩
    | ok p =>
      obtain ⟨u', s1⟩ := p
      obtain ⟨hwf1, hinv1, -, -, -⟩ := credInv_resolve_ok hwf hinv hres
      obtain ⟨hu, hk⟩ := create_trade_frame s1 u' task tid now en eng dok
      exact ⟨usersWF_congr hu hwf1, credInv_congr hu hk hinv1⟩
  | opListTrades key' skip limit status now =>
    simp only [Op.apply]
    cases hres : resolve s key' now with
    | error e => exact ⟨hwf, hinv⟩
    | ok p =>
      obtain ⟨u', s1⟩ := p
      obtain ⟨hwf1, hinv1, -, -, -⟩ := credInv_resolve_ok hwf hinv hres
      exact ⟨hwf1, hinv1⟩
  | opGetTrade key' tid now =>
    simp only [Op.apply]
    cases hres : resolve s key' now with
    | error e => exact ⟨hwf, hinv⟩
    | ok p =>
      obtain ⟨u', s1⟩ := p
      obtain ⟨hwf1, hinv1, -, -, -⟩ := credInv_resolve_ok hwf hinv hres
      exact ⟨hwf1, hinv1⟩
  | opDeleteTrade key' tid now =>
    simp only [Op.apply]
    cases hres : resolve s key' now with
    | error e => exact ⟨hwf, hinv⟩
    | ok p =>
      obtain ⟨u', s1⟩ := p
      obtain ⟨hwf1, hinv1, -, -, -⟩ := credInv_resolve_ok hwf hinv hres
      obtain ⟨hu, hk⟩ := delete_trade_frame s1 tid u'.id
      exact ⟨usersWF_congr hu hwf1, credInv_congr hu hk hinv1⟩
  | opAnalytics key' days now =>
    simp only [Op.apply]
    cases hres : resolve s key' now with
    | error e => exact ⟨hwf, hinv⟩
    | ok p =>
      obtain ⟨u', s1⟩ := p
      obtain ⟨hwf1, hinv1, -, -, -⟩ := credInv_resolve_ok hwf hinv hres
      show UsersWF (get_historical_analytics s1 u'.id now days).2 ∧
        CredInv (get_historical_analytics s1 u'.id now days).2 uid key
      rw [analytics_state]
      exact ⟨hwf1, hinv1⟩

/-- Both invariants persist along any avoiding request sequence. -/
theorem credInv_runOps {uid key : String} :
    ∀ ops s, UsersWF s → CredInv s uid key →
      (∀ op ∈ ops, op.avoids uid key) →
      UsersWF (runOps ops s) ∧ CredInv (runOps ops s) uid key := by
  intro ops
  induction ops with
  | nil => exact fun s h1 h2 _ => ⟨h1, h2⟩
  | cons op ops ih =>
    intro s h1 h2 hav
    have hstep := credInv_step op h1 h2 (hav op (List.mem_cons_self _ _))
    exact ih _ hstep.1 hstep.2
      (fun o ho => hav o (List.mem_cons_of_mem _ ho))

/-- The credential invariant makes resolution succeed with exactly the
registered identity (last-access stamped). -/
theorem resolve_of_credInv {s : State} {uid key : String}
    (h : CredInv s uid key) (now : Int) :
    ∃ u' s', resolve s key now = .ok (u', s') ∧ u'.id = uid ∧
      u'.api_key = key ∧ u'.last_login = some now := by
  obtain ⟨hne, hk, u, hu, hid, hkey⟩ := h
  refine ⟨{ u with last_login := some now },
    { s with
        users :=
          alSet s.users uid { u with last_login := some now } },
    ?_, hid, hkey, rfl⟩
  rcases resolve_cases s key now with he | ⟨uid1, u1, h1, h2, h3, h4⟩
  · simp [resolve, hk, hne, hu] at he
  · rw [h1] at hk
    obtain rfl : uid1 = uid := Option.some.inj hk
    rw [h3] at hu
    obtain rfl : u1 = u := Option.some.inj hu
    exact h4

/-- C8: registering with fresh identifiers issues a user id and
credential distinct from every previously issued one; the returned user
carries exactly those; after any request sequence that does not
re-register them, resolving the credential still returns that user's
identity (with the last-access stamp as the only observable resolve
side effect); and every successful resolution leaves the credential
map, ledger and audit trace untouched, replacing only the resolved
user's entry by itself with a new last-access timestamp. -/
theorem C8_register_resolve (s : State) (profile : UserCreate)
    (uid key : String) (now : Int) (hwf : UsersWF s) (hne : uid ≠ "")
    (hufresh : alGet s.users uid = none)
    (hkfresh : alGet s.api_keys key = none) :
    (∀ p ∈ s.users, p.1 ≠ uid) ∧
    (∀ p ∈ s.api_keys, p.1 ≠ key) ∧
    (create_user s profile uid key now).1.id = uid ∧
    (create_user s profile uid key now).1.api_key = key ∧
    (∀ ops, (∀ op ∈ ops, op.avoids uid key) → ∀ now',
      ∃ u' s'', resolve
          (runOps ops (create_user s profile uid key now).2) key
          now' = .ok (u', s'') ∧
        u'.id = uid ∧ u'.api_key = key ∧
        u'.last_login = some now') ∧
    (∀ s1 key' now' u' s2, UsersWF s1 →
      resolve s1 key' now' = .ok (u', s2) →
      s2.api_keys = s1.api_keys ∧ s2.trades = s1.trades ∧
      s2.auditCalls = s1.auditCalls ∧
      ∃ uid0 u0, alGet s1.users uid0 = some u0 ∧
        u' = { u0 with last_login := some now' } ∧
        s2.users = alSet s1.users uid0 u') := by
  have hwf' : UsersWF (create_user s profile uid key now).2 :=
    usersWF_alSet hwf rfl
  have hinv' : CredInv (create_user s profile uid key now).2 uid key := by
    refine ⟨hne, ?_, ?_⟩
    · show alGet (alSet s.api_keys key uid) key = some uid
      exact alGet_alSet_self _ _ _
    · exact ⟨(create_user s profile uid key now).1,
        alGet_alSet_self _ _ _, rfl, rfl⟩
  refine ⟨ne_keys_of_alGet_none hufresh,
    ne_keys_of_alGet_none hkfresh, rfl, rfl, ?_, ?_⟩
  · intro ops hav now'
    have hrun := credInv_runOps ops _ hwf' hinv' hav
    exact resolve_of_credInv hrun.2 now'
  · intro s1 key' now' u' s2 hwf1 hres
    obtain ⟨hak, htr, hau, -, uid0, u0, hu0, hu'eq, -, hus⟩ :=
      resolve_ok_props hwf1 hres
    exact ⟨hak, htr, hau, uid0, u0, hu0, hu'eq, hus⟩

/-- C8 witness: register in the fresh initial state, run no further
requests, and resolve: the registered identity comes back. -/
theorem C8_register_resolve_witness :
    (resolve (runOps []
        (create_user initState
          { username := "trader_1", email := "trader_1@example.com",
            fund_name := "Test Trading Fund" } "u1" "key1" 0).2)
        "key1" 3).toOption.map (fun p => (p.1.id, p.1.api_key)) =
      some ("u1", "key1") := by
  obtain ⟨-, -, -, -, hres, -⟩ := C8_register_resolve initState
    { username := "trader_1", email := "trader_1@example.com",
      fund_name := "Test Trading Fund" } "u1" "key1" 0
    (fun p hp => absurd hp (List.not_mem_nil p)) (by decide) rfl rfl
  obtain ⟨u', s'', heq, hid, hkey, -⟩ :=
    hres [] (fun op ho => absurd ho (List.not_mem_nil op)) 3
  rw [heq]
  simp only [Except.toOption, Option.map]
  exact congrArg some (Prod.ext_iff.mpr ⟨hid, hkey⟩)

/-! Claim C10: reachable-state invariant machinery. -/

/-- Every stored trade record is terminal COMPLETED with execution
timestamp, result and metrics populated. -/
def TradesInv (s : State) : Prop :=
  ∀ p ∈ s.trades, (p.2).status = TradeStatus.completed ∧
    (p.2).executed_at.isSome ∧ (p.2).result.isSome ∧
    (p.2).performance_metrics.isSome

theorem tradesInv_congr {s s' : State} (h : s'.trades = s.trades)
    (hi : TradesInv s) : TradesInv s' := by
  intro p hp
  rw [h] at hp
  exact hi p hp

theorem tradesInv_resolve_ok {s : State} {key : String} {now : Int}
    {u' : User} {s' : State} (h : resolve s key now = .ok (u', s'))
    (hi : TradesInv s) : TradesInv s' := by
  rcases resolve_cases s key now with he | ⟨uid, u, h1, h2, h3, h4⟩
  · rw [he] at h
    exact absurd h (by simp)
  · rw [h4] at h
    simp only [Except.ok.injEq, Prod.mk.injEq] at h
    obtain ⟨-, hs'⟩ := h
    subst hs'
    exact hi

theorem tradesInv_create_trade {s : State} {u : User}
    {task : TradingTask} {tid : String} {n en : Int}
    {eng : Except String ResultPayload} {dok : Bool}
    (hi : TradesInv s) :
    TradesInv (create_trade s u task tid n en eng dok).2 := by
  cases eng with
  | error e => exact hi
  | ok res =>
    intro p hp
    cases dok <;>
      simp only [create_trade, log_to_swarms, store_failed_log,
        Bool.false_eq_true, if_false, if_true, if_neg, if_pos] at hp <;>
      rcases mem_alSet hp with hmem | rfl <;>
      first
        | exact hi p hmem
        | exact ⟨rfl, rfl, rfl, rfl⟩

theorem tradesInv_delete {s : State} {tid r : String}
    (hi : TradesInv s) : TradesInv (delete_trade s tid r).2 := by
  unfold delete_trade
  cases h : alGet s.trades tid with
  | none => exact hi
  | some tr =>
    by_cases hne : tr.user_id ≠ r
    · simp only [if_pos hne]
      exact hi
    · simp only [if_neg hne]
      intro p hp
      exact hi p (mem_alRemove hp)

/-- Every request preserves the trades invariant. -/
theorem tradesInv_step (op : Op) {s : State} (hi : TradesInv s) :
    TradesInv (op.apply s) := by
  cases op with
  | opCreateUser p uid key now => exact tradesInv_congr rfl hi
  | opGetMe key now =>
    simp only [Op.apply]
    cases hres : resolve s key now with
    | error e => exact hi
    | ok q =>
      obtain ⟨u', s1⟩ := q
      exact tradesInv_resolve_ok hres hi
  | opUpdateUser key upd now =>
    simp only [Op.apply]
    unfold update_user
    cases hres : resolve s key now with
    | error e => exact hi
    | ok q =>
      obtain ⟨u', s1⟩ := q
      intro p hp
      exact tradesInv_resolve_ok hres hi p hp
  | opCreateTrade key task tid now en eng dok =>
    simp only [Op.apply]
    cases hres : resolve s key now with
    | error e => exact hi
    | ok q =>
      obtain ⟨u', s1⟩ := q
      exact tradesInv_create_trade (tradesInv_resolve_ok hres hi)
  | opListTrades key skip limit status now =>
    simp only [Op.apply]
    cases hres : resolve s key now with
    | error e => exact hi
    | ok q =>
      obtain ⟨u', s1⟩ := q
      exact tradesInv_resolve_ok hres hi
  | opGetTrade key tid now =>
    simp only [Op.apply]
    cases hres : resolve s key now with
    | error e => exact hi
    | ok q =>
      obtain ⟨u', s1⟩ := q
      exact tradesInv_resolve_ok hres hi
  | opDeleteTrade key tid now =>
    simp only [Op.apply]
    cases hres : resolve s key now with
    | error e => exact hi
    | ok q =>
      obtain ⟨u', s1⟩ := q
      exact tradesInv_delete (tradesInv_resolve_ok hres hi)
  | opAnalytics key days now =>
    simp only [Op.apply]
    cases hres : resolve s key now with
    | error e => exact hi
    | ok q =>
      obtain ⟨u', s1⟩ := q
      show TradesInv (get_historical_analytics s1 u'.id now days).2
      rw [analytics_state]
      exact tradesInv_resolve_ok hres hi

theorem tradesInv_runOps :
    ∀ ops s, TradesInv s → TradesInv (runOps ops s) := by
  intro ops
  induction ops with
  | nil => exact fun s h => h
  | cons op ops ih => exact fun s h => ih _ (tradesInv_step op h)

/-- C10: in every state reachable from the fresh API by any request
sequence, every stored trade record is COMPLETED with non-null
execution timestamp, result and metrics; listing with a non-COMPLETED
status filter always returns the empty sequence; and an analytics
snapshot over a non-empty matching set always reports a success rate of
100. -/
theorem C10_reachable (ops : List Op) :
    (∀ tid tr,
      alGet (runOps ops initState).trades tid = some tr →
      tr.status = TradeStatus.completed ∧ tr.executed_at.isSome ∧
      tr.result.isSome ∧ tr.performance_metrics.isSome) ∧
    (∀ req skip limit st, st ≠ TradeStatus.completed →
      (list_trades (runOps ops initState) req skip limit
        (some st)).1 = []) ∧
    (∀ req now days a,
      (get_historical_analytics (runOps ops initState) req now
        days).1 = some a →
      a.total_trades ≠ 0 → a.success_rate = 100) := by
  have hinv : TradesInv (runOps ops initState) :=
    tradesInv_runOps ops initState
      (fun p hp => absurd hp (List.not_mem_nil p))
  refine ⟨?_, ?_, ?_⟩
  · intro tid tr h
    exact hinv (tid, tr) (alGet_mem h)
  · intro req skip limit st hst
    have hfil : ((runOps ops initState).trades.map Prod.snd).filter
        (tradeMatches req (some st)) = [] := by
      rw [List.filter_eq_nil_iff]
      intro t ht
      rcases List.mem_map.mp ht with ⟨p, hp, rfl⟩
      have hc := (hinv p hp).1
      simp only [tradeMatches, hc, Bool.and_eq_true, decide_eq_true_eq,
        not_and]
      intro h1 h2
      exact hst h2.symm
    simp [list_trades, hfil]
  · intro req now days a ha htot
    simp only [get_historical_analytics] at ha
    set ut := ((runOps ops initState).trades.map Prod.snd).filter
      (inWindow req (now - (days : Int))) with hut
    have hall : ∀ t ∈ ut, t.status = TradeStatus.completed := by
      intro t ht
      rw [hut] at ht
      rcases List.mem_map.mp (List.mem_of_mem_filter ht) with
        ⟨p, hp, rfl⟩
      exact (hinv p hp).1
    split at ha
    · obtain rfl : emptyAnalytics = a := Option.some.inj ha
      exact absurd rfl htot
    · split at ha
      · exact absurd ha (by simp)
      · obtain rfl := Option.some.inj ha
        have hfeq : ut.filter
            (fun t => decide (t.status = TradeStatus.completed)) =
              ut :=
          List.filter_eq_self.mpr (fun t ht => by simp [hall t ht])
        have hlen : ut.length ≠ 0 := htot
        have hlenQ : (ut.length : ℚ) ≠ 0 :=
          Nat.cast_ne_zero.mpr hlen
        show ((ut.filter (fun t =>
          decide (t.status = TradeStatus.completed))).length : ℚ) /
            (ut.length : ℚ) * 100 = 100
        rw [hfeq, div_self hlenQ, one_mul]

/-- C10 witness: the theorem applied at the empty request sequence, with
the non-COMPLETED filter PENDING. -/
theorem C10_reachable_witness :
    (list_trades (runOps [] initState) "u1" 0 10
      (some TradeStatus.pending)).1 = [] :=
  (C10_reachable []).2.1 "u1" 0 10 TradeStatus.pending (by decide)

end AutoHedge
